import Mathlib

/-!
Verification development for the MVP-Agent process supervisor
(`src/mcp_process_manager.py`).

The supervisor (`MCPManager`) spawns a fixed list of helper HTTP services as
child processes, polls each one for health with a bounded loop, aggregates
startup failures into a single error, and tears everything down in phases
(terminate, bounded wait, force kill, close log handles).

Shallow embedding conventions:
* OS processes and file handles live in a `World` record (`alive` per process
  id, `openH` per handle id); spawning, killing and closing are pointwise
  updates of that record.
* Everything the OS/network decides (whether a spawn raises, what an HTTP
  poll returns at each loop iteration, whether a process honours SIGTERM)
  is an explicit environment (`Env`, `HealthEnv`) that theorems quantify
  over.
* Time-bounded `while time.time() < deadline` loops are embedded as
  fuel-indexed recursion: one unit of fuel is one loop iteration, and the
  fuel is the iteration budget the deadline allows.
* `terminate()` may raise or be ignored (SIGTERM is catchable); a `kill()`
  that the code reaches always ends the process (SIGKILL semantics), and
  closing a log handle always closes it (CPython closes the underlying
  descriptor even when the flush inside `close` fails).
* Python exceptions become `Except String`; messages are built with the
  same literal fragments as the source f-strings.
-/

namespace MVPAgent

/-! ## String containment helpers

Used to state that an error message mentions a service name, a failure
description or a log tail. `containsStr s pat` is a Boolean "pat occurs as a
contiguous substring of s". -/

def isPrefixList : List Char → List Char → Bool
  | [], _ => true
  | _ :: _, [] => false
  | a :: as, b :: bs => a == b && isPrefixList as bs

def subList (p : List Char) : List Char → Bool
  | [] => p.isEmpty
  | c :: rest => isPrefixList p (c :: rest) || subList p rest

def containsStr (s pat : String) : Bool := subList pat.data s.data

theorem isPrefixList_self_append (p r : List Char) : isPrefixList p (p ++ r) = true := by
  induction p with
  | nil => rfl
  | cons a as ih => simp [isPrefixList, ih]

theorem subList_self_append (p r : List Char) : subList p (p ++ r) = true := by
  cases p with
  | nil =>
    cases r with
    | nil => rfl
    | cons c cs => simp [subList, isPrefixList]
  | cons a as =>
    show subList (a :: as) (a :: (as ++ r)) = true
    simp [subList, isPrefixList, isPrefixList_self_append]

theorem subList_append_left (l : List Char) {p t : List Char} (h : subList p t = true) :
    subList p (l ++ t) = true := by
  induction l with
  | nil => simpa using h
  | cons c cs ih => simp [subList, ih]

theorem contains_of_parts (s pat : String) (x y : List Char)
    (h : s.data = x ++ (pat.data ++ y)) : containsStr s pat = true := by
  unfold containsStr
  rw [h]
  exact subList_append_left x (subList_self_append _ _)

theorem data_append (a b : String) : (a ++ b).data = a.data ++ b.data := rfl

/-! ## Small Python string operations used by the source -/

/-- `str.strip()` as used in `_read_log_tail` (line 174): drop ASCII
whitespace from both ends. -/
def isWS (c : Char) : Bool := c == ' ' || c == '\n' || c == '\t' || c == '\r'

def pyStrip (s : String) : String :=
  ⟨((s.data.dropWhile isWS).reverse.dropWhile isWS).reverse⟩

/-- `cfg.url.rstrip("/")` from `_wait_healthy` (line 125). -/
def rstripSlash (s : String) : String :=
  ⟨(s.data.reverse.dropWhile (fun c => c == '/')).reverse⟩

/-- `"; ".join(errors)` from `start_all` (lines 85 and 95). -/
def joinSemi : List String → String
  | [] => ""
  | [e] => e
  | e :: rest => e ++ "; " ++ joinSemi rest

/-- `''.join(tail_lines)` from `_read_log_tail` (line 174); log content is
modelled as a list of lines without their trailing newlines, so the join
reinserts the newlines between lines. -/
def joinNL : List String → String
  | [] => ""
  | [l] => l
  | l :: rest => l ++ "\n" ++ joinNL rest

/-! ## Data model (`MCPConfig`, lines 17-23) -/

structure MCPConfig where
  name : String
  command : List String
  url : String
  health_path : String := "/health"
  /-- seconds; the source default is the float `20.0`, modelled as the
  whole number of seconds. -/
  start_timeout : Nat := 20
deriving Repr, DecidableEq

/-- `sys.executable or "python"` (line 42), modelled as the fallback. -/
def pythonExe : String := "python"

/-- First entry of `MCPManager.__init__`'s config list (lines 46-50). -/
def fileManagerCfg : MCPConfig :=
  { name := "file-manager-mcp"
    command := [pythonExe, "-u", "tools/file_manager_mcp/run.py"]
    url := "http://127.0.0.1:8081" }

/-- Second entry of `MCPManager.__init__`'s config list (lines 51-55). -/
def markdownifyCfg : MCPConfig :=
  { name := "markdownify-mcp"
    command := [pythonExe, "-u", "tools/markdownify_mcp/run.py"]
    url := "http://127.0.0.1:8083" }

/-- `self.configs` as fixed by the constructor (lines 45-56). -/
def defaultConfigs : List MCPConfig := [fileManagerCfg, markdownifyCfg]

/-- `LOGS_DIR / f"{cfg.name}.log"` (lines 104, 134, 159), rendered relative
to the project base directory. -/
def logPathStr (cfg : MCPConfig) : String := "logs/" ++ cfg.name ++ ".log"

/-- `cfg.url.rstrip("/") + cfg.health_path` (line 125). -/
def healthUrl (cfg : MCPConfig) : String := rstripSlash cfg.url ++ cfg.health_path

/-! ## `_read_log_tail` (lines 163-176) -/

/-- What opening and reading the log file can observe: the file is missing,
reading raised, or the file holds these lines (without trailing newlines). -/
inductive LogRead where
  | missing
  | readFailed (e : String)
  | lines (ls : List String)
deriving Repr, DecidableEq

/-- `MCPManager._read_log_tail` with the default `lines=10`:
`all_lines[-10:] if len(all_lines) > 10 else all_lines`, joined and
stripped, with the source's three fallback strings. -/
def read_log_tail (lr : LogRead) : String :=
  match lr with
  | LogRead.missing => "(log file not found)"
  | LogRead.readFailed e => "(could not read log: " ++ e ++ ")"
  | LogRead.lines ls =>
    let tail := if ls.length > 10 then ls.drop (ls.length - 10) else ls
    let s := pyStrip (joinNL tail)
    if s = "" then "(empty log)" else s

/-! ## `_wait_healthy` (lines 120-161)

The polling loop is time-bounded in the source
(`while time.time() < deadline` with `deadline = time.time() +
cfg.start_timeout`); it is embedded with fuel counting the loop iterations
the deadline admits.  At iteration `i` the environment reports:
* `alive i` — the result of `self.procs.get(cfg.name)` / `proc.poll()`
  at that iteration (`false` means missing or exited, line 132);
* `health i` — the outcome of `requests.get(health_url)` (line 139),
  `none` when the request raised;
* `root` — the outcome of the single fallback `requests.get(root_url)`
  (line 147), `none` when it raised. -/

structure HealthEnv where
  alive : Nat → Bool
  health : Nat → Option Nat
  root : Option Nat

structure HealthResult where
  ok : Bool
  msg : String
  /-- number of loop iterations that began executing. -/
  iters : Nat
  /-- number of bare-root fallback requests issued. -/
  rootQueries : Nat
deriving Repr, DecidableEq

/-- Failure message of the early-exit branch (line 136). -/
def exitedMsg (cfg : MCPConfig) (lr : LogRead) : String :=
  "process exited during startup. Check " ++ logPathStr cfg ++
    "\nLast log lines:\n" ++ read_log_tail lr

/-- Failure message of the timeout branch (line 161). -/
def timeoutMsg (cfg : MCPConfig) (lr : LogRead) : String :=
  "timeout after " ++ toString cfg.start_timeout ++ "s waiting for " ++
    healthUrl cfg ++ ". Check " ++ logPathStr cfg ++
    "\nLast log lines:\n" ++ read_log_tail lr

/-- Body of `_wait_healthy`'s polling loop.  `tried` is the source's
`tried_root` flag (line 128); `i` is the current iteration index; `rq`
counts root requests so far.  Branches, in source order: the process-exit
check (lines 131-136); a raised health request (`except` at lines 153-156:
sleep and continue); `resp.status_code == 200` (lines 140-141);
`resp.status_code == 404 and not tried_root` (lines 143-152), issuing the
single root request whose 200/404 statuses count as healthy (line 148) and
whose other statuses or raise fall through with `tried_root` now set; any
other status falls through to the next iteration. -/
def waitHealthyGo (cfg : MCPConfig) (env : HealthEnv) (lr : LogRead) :
    Nat → Nat → Bool → Nat → HealthResult
  | 0, i, _, rq => ⟨false, timeoutMsg cfg lr, i, rq⟩
  | fuel + 1, i, tried, rq =>
    if env.alive i = false then
      ⟨false, exitedMsg cfg lr, i + 1, rq⟩
    else if env.health i = none then
      waitHealthyGo cfg env lr fuel (i + 1) tried rq
    else if env.health i = some 200 then
      ⟨true, "ok", i + 1, rq⟩
    else if env.health i = some 404 then
      if tried then waitHealthyGo cfg env lr fuel (i + 1) tried rq
      else if env.root = some 200 ∨ env.root = some 404 then
        ⟨true, "ok (no /health, but port open)", i + 1, rq + 1⟩
      else waitHealthyGo cfg env lr fuel (i + 1) true (rq + 1)
    else waitHealthyGo cfg env lr fuel (i + 1) tried rq

/-- `MCPManager._wait_healthy`, returning the `(ok, msg)` pair of the source
together with the iteration and root-request counts. -/
def wait_healthy (cfg : MCPConfig) (env : HealthEnv) (lr : LogRead) (fuel : Nat) :
    HealthResult :=
  waitHealthyGo cfg env lr fuel 0 false 0

/-! ## OS world and manager state (lines 58-62)

`World.alive` is the OS view of which process ids are running (Python:
`proc.poll() is None`); `World.openH` of which log-file handles are open.
`MState` mirrors the mutable fields of `MCPManager`: `self.configs`,
`self.procs` (name to process handle), `self._log_files` (name to log file
object) and `self.started`. -/

structure World where
  alive : Nat → Bool
  openH : Nat → Bool

def World.init : World := ⟨fun _ => false, fun _ => false⟩

structure MState where
  configs : List MCPConfig
  procs : List (String × Nat)
  log_files : List (String × Nat)
  started : Bool

/-- `MCPManager.__init__` (lines 41-62). -/
def initialManager : MState :=
  { configs := defaultConfigs, procs := [], log_files := [], started := false }

/-! Association-list operations embedding the Python dict operations used on
`self.procs` and `self._log_files`: lookup (`self.procs.get(name)` /
`name in self.procs`) and assignment (`self.procs[name] = proc`). -/

def alookup : List (String × Nat) → String → Option Nat
  | [], _ => none
  | kv :: rest, key => if kv.1 == key then some kv.2 else alookup rest key

def keysOf (l : List (String × Nat)) : List String := l.map Prod.fst

def keyMem (ks : List String) (k : String) : Bool := ks.any (fun s => s == k)

/-- Python dict assignment `d[k] = v`: replace the entry if the key is
present, append it otherwise. -/
def insertA (l : List (String × Nat)) (k : String) (v : Nat) : List (String × Nat) :=
  if keyMem (keysOf l) k then l.map (fun kv => if kv.1 == k then (k, v) else kv)
  else l ++ [(k, v)]

/-- Boolean list membership for process ids. -/
def natMem (x : Nat) : List Nat → Bool
  | [] => false
  | y :: rest => x == y || natMem x rest

/-! ## The environment of a run

Everything the OS and the network decide during one `start_all`/`stop_all`
run, keyed by service name or process id:
* `spawn` — outcome of `subprocess.Popen(cfg.command, ...)` (line 111):
  the new process id, or the exception message when the spawn raises;
* `handleFor` — the handle id `log_path.open("ab")` allocates (line 106);
* `health`, `healthFuel`, `logRead` — the per-service observations of the
  `_wait_healthy` polling loop and of `_read_log_tail`;
* `termRaises` — whether `proc.terminate()` raises for this process
  (line 190-192; the exception is swallowed and nothing is delivered);
* `exitsAt` — at which phase-2 poll iteration the process is observed to
  have exited after a delivered terminate (line 198), `none` when the
  process ignores SIGTERM and survives until the force kill. -/

structure Env where
  spawn : String → Except String Nat
  handleFor : String → Nat
  health : String → HealthEnv
  healthFuel : String → Nat
  logRead : String → LogRead
  termRaises : Nat → Bool
  exitsAt : Nat → Option Nat

/-! ## `_start_one` (lines 99-118)

The source opens the log sink first (line 106) and only then spawns the
child (line 111); when the spawn raises, the already-opened handle is in no
map and the exception propagates with the handle left open. -/

def start_one_spawn (env : Env) (cfg : MCPConfig) (st : MState) (w : World) :
    Except String Unit × MState × World :=
  let h := env.handleFor cfg.name
  let w1 : World := { w with openH := fun x => if x == h then true else w.openH x }
  match env.spawn cfg.name with
  | Except.error e => (Except.error e, st, w1)
  | Except.ok pid =>
    (Except.ok (),
     { st with
        procs := insertA st.procs cfg.name pid
        log_files := insertA st.log_files cfg.name h },
     { w1 with alive := fun x => if x == pid then true else w1.alive x })

/-- `MCPManager._start_one`: skip when this name already has a running
process (lines 100-102), otherwise open the log and spawn. -/
def start_one (env : Env) (cfg : MCPConfig) (st : MState) (w : World) :
    Except String Unit × MState × World :=
  match alookup st.procs cfg.name with
  | some pid =>
    if w.alive pid then (Except.ok (), st, w)
    else start_one_spawn env cfg st w
  | none => start_one_spawn env cfg st w

/-- The spawn loop of `start_all` (lines 76-80): attempt every descriptor,
catching each per-service exception as
`f"{cfg.name} failed to start: {e}"`, never aborting early. -/
def spawnPhase (env : Env) : List MCPConfig → MState → World → List String × MState × World
  | [], st, w => ([], st, w)
  | cfg :: rest, st, w =>
    let r0 := start_one env cfg st w
    match r0.1 with
    | Except.ok _ => spawnPhase env rest r0.2.1 r0.2.2
    | Except.error e =>
      let r := spawnPhase env rest r0.2.1 r0.2.2
      ((cfg.name ++ " failed to start: " ++ e) :: r.1, r.2.1, r.2.2)

/-- Error line built at line 91 of the source. -/
def unhealthyLine (cfg : MCPConfig) (m : String) : String :=
  cfg.name ++ " unhealthy: " ++ m

/-- The health loop of `start_all` (lines 88-91): collect
`f"{cfg.name} unhealthy: {msg}"` for every service whose health check
fails. -/
def healthPhase (env : Env) : List MCPConfig → List String
  | [] => []
  | cfg :: rest =>
    let r := wait_healthy cfg (env.health cfg.name) (env.logRead cfg.name)
      (env.healthFuel cfg.name)
    if r.ok then healthPhase env rest
    else unhealthyLine cfg r.msg :: healthPhase env rest

/-! ## `stop_all` (lines 178-222)

Phase 1 (lines 186-192) sends SIGTERM to every still-running process,
swallowing per-process exceptions.  Phase 2 (lines 194-201) polls all
processes for `2 * len(procs)` seconds in 0.1-second sleeps — at most
`20 * len(procs)` iterations — breaking early once all have exited.
Phase 3 (lines 203-211) force-kills and reaps every straggler.  Phase 4
(lines 213-218) closes every tracked log handle.  Finally both maps are
cleared and `started` is reset (lines 220-222).  The early return at
line 182-183 skips everything when `self.procs` is empty. -/

/-- Phase 1: the process ids that actually receive SIGTERM — those still
running whose `terminate()` did not raise. -/
def termSentList (env : Env) (w : World) : List (String × Nat) → List Nat
  | [] => []
  | np :: rest =>
    if w.alive np.2 && !(env.termRaises np.2) then np.2 :: termSentList env w rest
    else termSentList env w rest

/-- Whether process `p` is still running after `t` phase-2 poll iterations:
it was running when `stop_all` began, and either never received SIGTERM or
its observed exit iteration has not been reached yet. -/
def aliveAt (env : Env) (w : World) (terms : List Nat) (p : Nat) (t : Nat) : Bool :=
  w.alive p &&
    (if natMem p terms then
        match env.exitsAt p with
        | some e => decide (t < e)
        | none => true
      else true)

/-- `all(p.poll() is not None for p in self.procs.values())` (line 198). -/
def allStopped (env : Env) (w : World) (terms : List Nat)
    (procs : List (String × Nat)) (t : Nat) : Bool :=
  procs.all (fun np => !(aliveAt env w terms np.2 t))

/-- The phase-2 `while time.time() < deadline` loop (lines 197-201): starting
at iteration `t` with `fuel` iterations of budget left, return the iteration
at which the loop exits. -/
def waitLoop (check : Nat → Bool) : Nat → Nat → Nat
  | 0, t => t
  | fuel + 1, t => if check t then t else waitLoop check fuel (t + 1)

def trackedPids (st : MState) : List Nat := st.procs.map Prod.snd

/-- Iteration at which the phase-2 wait of `stop_all` exits; the budget
`20 * len(procs)` embeds `deadline = time.time() + 2 * len(self.procs)`
with the 0.1-second sleep of line 201. -/
def stopWaitTime (env : Env) (st : MState) (w : World) : Nat :=
  waitLoop (allStopped env w (termSentList env w st.procs) st.procs)
    (20 * st.procs.length) 0

/-- The world as phase 3 observes it: every tracked process carries the exit
status the phase-2 polling saw at the loop-exit iteration. -/
def waitWorld (env : Env) (st : MState) (w : World) : World :=
  { w with alive := fun p =>
      if natMem p (trackedPids st) then
        aliveAt env w (termSentList env w st.procs) p (stopWaitTime env st w)
      else w.alive p }

/-- The processes phase 3 finds still running (`proc.poll() is None`,
line 206) and force-kills. -/
def stragglers (env : Env) (st : MState) (w : World) : List Nat :=
  (trackedPids st).filter (fun p => (waitWorld env st w).alive p)

/-- Phase 3: `proc.kill(); proc.wait(timeout=1)` for every straggler; a
delivered SIGKILL ends the process. -/
def phase3kill : List Nat → World → World
  | [], w => w
  | p :: rest, w => phase3kill rest { w with alive := fun q => if q == p then false else w.alive q }

/-- Phase 4: `log_file.close()` for every tracked handle (lines 214-218);
CPython closes the descriptor even when the close raises, and the raise is
swallowed. -/
def closeLogs : List (String × Nat) → World → World
  | [], w => w
  | nh :: rest, w =>
    closeLogs rest { w with openH := fun x => if x == nh.2 then false else w.openH x }

/-- `MCPManager.stop_all`.  The source never raises: every per-process
operation is wrapped in `try/except`, which the embedding reflects by being
a total function into `MState × World`. -/
def stop_all (env : Env) (st : MState) (w : World) : MState × World :=
  if st.procs.isEmpty then (st, w)
  else
    ({ st with procs := [], log_files := [], started := false },
     closeLogs st.log_files (phase3kill (stragglers env st w) (waitWorld env st w)))

/-! ## `start_all` (lines 64-97) -/

/-- `MCPManager.start_all`: no-op when already started (lines 71-72); spawn
every descriptor collecting per-service errors (lines 76-80); on any spawn
error tear down and raise the joined message (lines 83-85); otherwise
health-check every descriptor (lines 88-91); on any health error tear down
and raise (lines 93-95); on success set `started` (line 97). -/
def start_all (env : Env) (st : MState) (w : World) :
    Except String Unit × MState × World :=
  if st.started then (Except.ok (), st, w)
  else
    let sp := spawnPhase env st.configs st w
    if sp.1.isEmpty then
      let herrs := healthPhase env st.configs
      if herrs.isEmpty then
        (Except.ok (), { sp.2.1 with started := true }, sp.2.2)
      else
        let td := stop_all env sp.2.1 sp.2.2
        (Except.error (joinSemi herrs), td.1, td.2)
    else
      let td := stop_all env sp.2.1 sp.2.2
      (Except.error (joinSemi sp.1), td.1, td.2)

/-- States of the supervisor reachable from a freshly constructed
`MCPManager` by any sequence of `start_all` and `stop_all` calls, under
arbitrary OS/network behaviour at every call. -/
inductive Reachable : MState → World → Prop
  | init : Reachable initialManager World.init
  | step_start {st w} (env : Env) :
      Reachable st w → Reachable (start_all env st w).2.1 (start_all env st w).2.2
  | step_stop {st w} (env : Env) :
      Reachable st w → Reachable (stop_all env st w).1 (stop_all env st w).2

/-! ## Basic lemmas about the list helpers -/

theorem natMem_iff (x : Nat) (l : List Nat) : natMem x l = true ↔ x ∈ l := by
  induction l with
  | nil => simp [natMem]
  | cons y rest ih => simp [natMem, ih, Nat.beq_eq_true_eq]

theorem keyMem_iff (ks : List String) (k : String) : keyMem ks k = true ↔ k ∈ ks := by
  induction ks with
  | nil => simp [keyMem]
  | cons s rest ih =>
    simp only [keyMem, List.any_cons, Bool.or_eq_true, beq_iff_eq] at *
    simp [ih, eq_comm]

theorem listMap_eq_nil {α β : Type} {f : α → β} {l : List α} (h : l.map f = []) : l = [] := by
  cases l with
  | nil => rfl
  | cons a rest => simp at h

theorem listIsEmpty_iff {α : Type} (l : List α) : l.isEmpty = true ↔ l = [] := by
  cases l <;> simp [List.isEmpty]

theorem keysOf_replace (l : List (String × Nat)) (k : String) (v : Nat) :
    keysOf (l.map (fun kv => if kv.1 == k then (k, v) else kv)) = keysOf l := by
  induction l with
  | nil => rfl
  | cons kv rest ih =>
    simp only [keysOf, List.map_cons] at *
    have hhead : (if (kv.1 == k) = true then (k, v) else kv).1 = kv.1 := by
      by_cases hk : kv.1 = k
      · simp [hk]
      · simp [beq_iff_eq, hk]
    rw [hhead, ih]

theorem keysOf_insertA (l : List (String × Nat)) (k : String) (v : Nat) :
    keysOf (insertA l k v) =
      if keyMem (keysOf l) k then keysOf l else keysOf l ++ [k] := by
  unfold insertA
  by_cases h : keyMem (keysOf l) k = true
  · simp only [h, if_true]
    exact keysOf_replace l k v
  · simp only [Bool.not_eq_true] at h
    simp only [h, Bool.false_eq_true, if_false]
    simp [keysOf]

theorem insertA_ne_nil (l : List (String × Nat)) (k : String) (v : Nat) :
    insertA l k v ≠ [] := by
  unfold insertA
  by_cases h : keyMem (keysOf l) k = true
  · simp only [h, if_true]
    intro hc
    have hl : l = [] := by
      cases l with
      | nil => rfl
      | cons kv rest => simp at hc
    subst hl
    simp [keyMem, keysOf] at h
  · simp only [Bool.not_eq_true] at h
    simp [h]

theorem alookup_ne_nil {l : List (String × Nat)} {k : String} {v : Nat}
    (h : alookup l k = some v) : l ≠ [] := by
  intro hl
  subst hl
  simp [alookup] at h

/-! ## Lemmas about the teardown phases -/

theorem phase3kill_alive (ps : List Nat) (w : World) (q : Nat) :
    (phase3kill ps w).alive q = if natMem q ps then false else w.alive q := by
  induction ps generalizing w with
  | nil => simp [phase3kill, natMem]
  | cons p rest ih =>
    simp only [phase3kill, ih, natMem]
    by_cases hq : q = p
    · simp [hq]
    · have : (q == p) = false := by simp [hq]
      simp [this, hq]

theorem phase3kill_openH (ps : List Nat) (w : World) :
    (phase3kill ps w).openH = w.openH := by
  induction ps generalizing w with
  | nil => rfl
  | cons p rest ih => simp [phase3kill, ih]

theorem closeLogs_openH (ls : List (String × Nat)) (w : World) (x : Nat) :
    (closeLogs ls w).openH x = if natMem x (ls.map Prod.snd) then false else w.openH x := by
  induction ls generalizing w with
  | nil => simp [closeLogs, natMem]
  | cons nh rest ih =>
    simp only [closeLogs, ih, List.map_cons, natMem]
    by_cases hx : x = nh.2
    · simp [hx]
    · have : (x == nh.2) = false := by simp [hx]
      simp [this, hx]

theorem closeLogs_alive (ls : List (String × Nat)) (w : World) :
    (closeLogs ls w).alive = w.alive := by
  induction ls generalizing w with
  | nil => rfl
  | cons nh rest ih => simp [closeLogs, ih]

theorem waitLoop_le (check : Nat → Bool) (fuel t : Nat) :
    waitLoop check fuel t ≤ t + fuel := by
  induction fuel generalizing t with
  | zero => simp [waitLoop]
  | succ f ih =>
    simp only [waitLoop]
    by_cases h : check t = true
    · simp only [h, if_true]
      omega
    · simp only [Bool.not_eq_true] at h
      simp only [h, Bool.false_eq_true, if_false]
      have := ih (t + 1)
      omega

theorem waitLoop_le_of_check {check : Nat → Bool} {t0 : Nat} (h0 : check t0 = true) :
    ∀ fuel t, t ≤ t0 → waitLoop check fuel t ≤ t0 := by
  intro fuel
  induction fuel with
  | zero => intro t ht; simpa [waitLoop] using ht
  | succ f ih =>
    intro t ht
    simp only [waitLoop]
    by_cases h : check t = true
    · simpa [h] using ht
    · simp only [Bool.not_eq_true] at h
      simp only [h, Bool.false_eq_true, if_false]
      have hne : t ≠ t0 := by
        intro he
        rw [he] at h
        rw [h0] at h
        simp at h
      exact ih (t + 1) (by omega)

/-! ## Core facts about `stop_all` -/

theorem stop_all_procs (env : Env) (st : MState) (w : World) :
    (stop_all env st w).1.procs = [] := by
  unfold stop_all
  by_cases h : st.procs.isEmpty = true
  · simp only [h, if_true]
    exact (listIsEmpty_iff st.procs).1 h
  · simp only [Bool.not_eq_true] at h
    simp [h]

theorem stop_all_alive (env : Env) (st : MState) (w : World) (p : Nat)
    (hp : p ∈ trackedPids st) : (stop_all env st w).2.alive p = false := by
  unfold stop_all
  by_cases h : st.procs.isEmpty = true
  · exfalso
    have : st.procs = [] := (listIsEmpty_iff st.procs).1 h
    rw [trackedPids, this] at hp
    simp at hp
  · simp only [Bool.not_eq_true] at h
    simp only [h, Bool.false_eq_true, if_false]
    rw [closeLogs_alive, phase3kill_alive]
    by_cases hs : natMem p (stragglers env st w) = true
    · simp [hs]
    · simp only [Bool.not_eq_true] at hs
      simp only [hs, Bool.false_eq_true, if_false]
      by_contra hw
      have halive : (waitWorld env st w).alive p = true := by
        have : (waitWorld env st w).alive p ≠ false := hw
        cases hb : (waitWorld env st w).alive p
        · exact absurd hb this
        · rfl
      have hmem : p ∈ stragglers env st w := by
        unfold stragglers
        exact List.mem_filter.2 ⟨hp, halive⟩
      have hm := (natMem_iff p (stragglers env st w)).2 hmem
      rw [hs] at hm
      simp at hm

theorem stop_all_openH (env : Env) (st : MState) (w : World)
    (hkeys : keysOf st.procs = keysOf st.log_files) (x : Nat)
    (hx : x ∈ st.log_files.map Prod.snd) : (stop_all env st w).2.openH x = false := by
  unfold stop_all
  by_cases h : st.procs.isEmpty = true
  · exfalso
    have hp : st.procs = [] := (listIsEmpty_iff st.procs).1 h
    rw [hp] at hkeys
    have : st.log_files = [] := listMap_eq_nil hkeys.symm
    rw [this] at hx
    simp at hx
  · simp only [Bool.not_eq_true] at h
    simp only [h, Bool.false_eq_true, if_false]
    rw [closeLogs_openH]
    rw [(natMem_iff x (st.log_files.map Prod.snd)).2 hx]
    rfl

/-! ## Lemmas about the health-check loop -/

theorem waitHealthyGo_rq_of_tried (cfg : MCPConfig) (env : HealthEnv) (lr : LogRead) :
    ∀ fuel i rq, (waitHealthyGo cfg env lr fuel i true rq).rootQueries = rq := by
  intro fuel
  induction fuel with
  | zero => intro i rq; rfl
  | succ f ih =>
    intro i rq
    simp only [waitHealthyGo]
    by_cases h1 : env.alive i = false
    · rw [if_pos h1]
    · rw [if_neg h1]
      by_cases h2 : env.health i = none
      · rw [if_pos h2]
        exact ih (i + 1) rq
      · rw [if_neg h2]
        by_cases h3 : env.health i = some 200
        · rw [if_pos h3]
        · rw [if_neg h3]
          by_cases h4 : env.health i = some 404
          · rw [if_pos h4]
            simp only [if_true]
            exact ih (i + 1) rq
          · rw [if_neg h4]
            exact ih (i + 1) rq

theorem waitHealthyGo_rq_le (cfg : MCPConfig) (env : HealthEnv) (lr : LogRead) :
    ∀ fuel i rq, (waitHealthyGo cfg env lr fuel i false rq).rootQueries ≤ rq + 1 := by
  intro fuel
  induction fuel with
  | zero => intro i rq; exact Nat.le_succ rq
  | succ f ih =>
    intro i rq
    simp only [waitHealthyGo]
    by_cases h1 : env.alive i = false
    · rw [if_pos h1]
      exact Nat.le_succ rq
    · rw [if_neg h1]
      by_cases h2 : env.health i = none
      · rw [if_pos h2]
        exact ih (i + 1) rq
      · rw [if_neg h2]
        by_cases h3 : env.health i = some 200
        · rw [if_pos h3]
          exact Nat.le_succ rq
        · rw [if_neg h3]
          by_cases h4 : env.health i = some 404
          · rw [if_pos h4]
            simp only [Bool.false_eq_true, if_false]
            by_cases h6 : env.root = some 200 ∨ env.root = some 404
            · rw [if_pos h6]
            · rw [if_neg h6]
              exact Nat.le_of_eq (waitHealthyGo_rq_of_tried cfg env lr f (i + 1) (rq + 1))
          · rw [if_neg h4]
            exact ih (i + 1) rq

/-- The bare-root fallback is attempted at most once per service
(`tried_root`, lines 128 and 143-144). -/
theorem wait_healthy_root_once (cfg : MCPConfig) (env : HealthEnv) (lr : LogRead)
    (fuel : Nat) : (wait_healthy cfg env lr fuel).rootQueries ≤ 1 := by
  unfold wait_healthy
  simpa using waitHealthyGo_rq_le cfg env lr fuel 0 0

/-- Once `tried_root` is set, a service whose `/health` keeps answering 404
while the process stays alive is never reported healthy; the loop runs to
its timeout. -/
theorem waitHealthyGo_404_tried_ok (cfg : MCPConfig) (env : HealthEnv) (lr : LogRead)
    (hal : ∀ i, env.alive i = true) (hh : ∀ i, env.health i = some 404) :
    ∀ fuel i rq, (waitHealthyGo cfg env lr fuel i true rq).ok = false := by
  intro fuel
  induction fuel with
  | zero => intro i rq; rfl
  | succ f ih =>
    intro i rq
    simp only [waitHealthyGo]
    have ha : ¬ env.alive i = false := by simp [hal i]
    rw [if_neg ha]
    have h2 : ¬ env.health i = none := by simp [hh i]
    rw [if_neg h2]
    have h3 : ¬ env.health i = some 200 := by simp [hh i]
    rw [if_neg h3]
    rw [if_pos (hh i)]
    simp only [if_true]
    exact ih (i + 1) rq

/-- A service whose `/health` always answers 404 and whose root answers with
a status other than 200 or 404 is never reported healthy. -/
theorem wait_healthy_404_bad_root (cfg : MCPConfig) (env : HealthEnv) (lr : LogRead)
    (fuel : Nat) (s : Nat) (hal : ∀ i, env.alive i = true)
    (hh : ∀ i, env.health i = some 404) (hr : env.root = some s)
    (hs : ¬(s = 200 ∨ s = 404)) : (wait_healthy cfg env lr fuel).ok = false := by
  unfold wait_healthy
  cases fuel with
  | zero => rfl
  | succ f =>
    simp only [waitHealthyGo]
    have ha : ¬ env.alive 0 = false := by simp [hal 0]
    rw [if_neg ha]
    have h2 : ¬ env.health 0 = none := by simp [hh 0]
    rw [if_neg h2]
    have h3 : ¬ env.health 0 = some 200 := by simp [hh 0]
    rw [if_neg h3]
    rw [if_pos (hh 0)]
    simp only [Bool.false_eq_true, if_false]
    have hroot : ¬(env.root = some 200 ∨ env.root = some 404) := by
      rw [hr]
      intro hcontra
      apply hs
      cases hcontra with
      | inl h => exact Or.inl (Option.some.inj h)
      | inr h => exact Or.inr (Option.some.inj h)
    rw [if_neg hroot]
    exact waitHealthyGo_404_tried_ok cfg env lr hal hh f 1 1

/-- A first 404 from `/health` whose root fallback answers 200 or 404 makes
the service healthy on that very iteration, with exactly one root request. -/
theorem wait_healthy_404_good_root (cfg : MCPConfig) (env : HealthEnv) (lr : LogRead)
    (f : Nat) (s : Nat) (hal : env.alive 0 = true) (hh : env.health 0 = some 404)
    (hr : env.root = some s) (hs : s = 200 ∨ s = 404) :
    wait_healthy cfg env lr (f + 1) =
      ⟨true, "ok (no /health, but port open)", 1, 1⟩ := by
  unfold wait_healthy
  simp only [waitHealthyGo]
  have ha : ¬ env.alive 0 = false := by simp [hal]
  rw [if_neg ha]
  have h2 : ¬ env.health 0 = none := by simp [hh]
  rw [if_neg h2]
  have h3 : ¬ env.health 0 = some 200 := by simp [hh]
  rw [if_neg h3]
  rw [if_pos hh]
  simp only [Bool.false_eq_true, if_false]
  have hroot : env.root = some 200 ∨ env.root = some 404 := by
    cases hs with
    | inl h => exact Or.inl (by rw [hr, h])
    | inr h => exact Or.inr (by rw [hr, h])
  rw [if_pos hroot]

/-- When the owning process is observed exited at iteration `j` of the
health loop, the loop returns within `j + 1` iterations — it never waits
out the remaining budget (lines 130-136). -/
theorem waitHealthyGo_iters_le (cfg : MCPConfig) (env : HealthEnv) (lr : LogRead)
    {j : Nat} (hdead : env.alive j = false) :
    ∀ fuel i tried rq, i ≤ j → j < i + fuel →
      (waitHealthyGo cfg env lr fuel i tried rq).iters ≤ j + 1 := by
  intro fuel
  induction fuel with
  | zero => intro i tried rq hij hlt; omega
  | succ f ih =>
    intro i tried rq hij hlt
    simp only [waitHealthyGo]
    by_cases h1 : env.alive i = false
    · rw [if_pos h1]
      exact Nat.succ_le_succ hij
    · rw [if_neg h1]
      have hne : i ≠ j := by
        intro he
        rw [he] at h1
        exact h1 hdead
      have hij1 : i + 1 ≤ j := by omega
      have hlt1 : j < (i + 1) + f := by omega
      by_cases h2 : env.health i = none
      · rw [if_pos h2]
        exact ih (i + 1) tried rq hij1 hlt1
      · rw [if_neg h2]
        by_cases h3 : env.health i = some 200
        · rw [if_pos h3]
          exact Nat.succ_le_succ hij
        · rw [if_neg h3]
          by_cases h4 : env.health i = some 404
          · rw [if_pos h4]
            cases tried with
            | true =>
              simp only [if_true]
              exact ih (i + 1) true rq hij1 hlt1
            | false =>
              simp only [Bool.false_eq_true, if_false]
              by_cases h6 : env.root = some 200 ∨ env.root = some 404
              · rw [if_pos h6]
                exact Nat.succ_le_succ hij
              · rw [if_neg h6]
                exact ih (i + 1) true (rq + 1) hij1 hlt1
          · rw [if_neg h4]
            exact ih (i + 1) tried rq hij1 hlt1

/-- Every failure message of the health loop ends with the log tail: both
the early-exit message (line 136) and the timeout message (line 161)
surface `_read_log_tail`'s output. -/
theorem waitHealthyGo_fail_msg (cfg : MCPConfig) (env : HealthEnv) (lr : LogRead) :
    ∀ fuel i tried rq, (waitHealthyGo cfg env lr fuel i tried rq).ok = false →
      ∃ s, (waitHealthyGo cfg env lr fuel i tried rq).msg = s ++ read_log_tail lr := by
  intro fuel
  induction fuel with
  | zero =>
    intro i tried rq _
    exact ⟨_, rfl⟩
  | succ f ih =>
    intro i tried rq hok
    simp only [waitHealthyGo] at hok ⊢
    by_cases h1 : env.alive i = false
    · rw [if_pos h1]
      exact ⟨_, rfl⟩
    · rw [if_neg h1] at hok ⊢
      by_cases h2 : env.health i = none
      · rw [if_pos h2] at hok ⊢
        exact ih (i + 1) tried rq hok
      · rw [if_neg h2] at hok ⊢
        by_cases h3 : env.health i = some 200
        · rw [if_pos h3] at hok
          simp at hok
        · rw [if_neg h3] at hok ⊢
          by_cases h4 : env.health i = some 404
          · rw [if_pos h4] at hok ⊢
            cases tried with
            | true =>
              simp only [if_true] at hok ⊢
              exact ih (i + 1) true rq hok
            | false =>
              simp only [Bool.false_eq_true, if_false] at hok ⊢
              by_cases h6 : env.root = some 200 ∨ env.root = some 404
              · rw [if_pos h6] at hok
                simp at hok
              · rw [if_neg h6] at hok ⊢
                exact ih (i + 1) true (rq + 1) hok
          · rw [if_neg h4] at hok ⊢
            exact ih (i + 1) tried rq hok

/-- A process observed exited on the very first poll makes the health check
fail immediately: one iteration, failure, early-exit message. -/
theorem wait_healthy_first_dead (cfg : MCPConfig) (env : HealthEnv) (lr : LogRead)
    (f : Nat) (hdead : env.alive 0 = false) :
    wait_healthy cfg env lr (f + 1) = ⟨false, exitedMsg cfg lr, 1, 0⟩ := by
  unfold wait_healthy
  simp only [waitHealthyGo]
  rw [if_pos hdead]

/-! ## Equation lemmas for `start_one` and `spawnPhase` -/

theorem start_one_eq_spawn_of_none {env : Env} {cfg : MCPConfig} {st : MState} {w : World}
    (hl : alookup st.procs cfg.name = none) :
    start_one env cfg st w = start_one_spawn env cfg st w := by
  unfold start_one
  rw [hl]

theorem start_one_eq_of_alive {env : Env} {cfg : MCPConfig} {st : MState} {w : World}
    {pid : Nat} (hl : alookup st.procs cfg.name = some pid) (hw : w.alive pid = true) :
    start_one env cfg st w = (Except.ok (), st, w) := by
  unfold start_one
  rw [hl]
  show (if w.alive pid = true then (Except.ok (), st, w)
    else start_one_spawn env cfg st w) = (Except.ok (), st, w)
  rw [if_pos hw]

theorem start_one_eq_spawn_of_dead {env : Env} {cfg : MCPConfig} {st : MState} {w : World}
    {pid : Nat} (hl : alookup st.procs cfg.name = some pid) (hw : w.alive pid = false) :
    start_one env cfg st w = start_one_spawn env cfg st w := by
  unfold start_one
  rw [hl]
  show (if w.alive pid = true then (Except.ok (), st, w)
    else start_one_spawn env cfg st w) = start_one_spawn env cfg st w
  rw [if_neg (by simp [hw])]

theorem start_one_spawn_err {env : Env} {cfg : MCPConfig} {st : MState} {w : World}
    {e : String} (hs : env.spawn cfg.name = Except.error e) :
    start_one_spawn env cfg st w =
      (Except.error e, st,
       { w with openH := fun x => if x == env.handleFor cfg.name then true else w.openH x }) := by
  unfold start_one_spawn
  rw [hs]

theorem start_one_spawn_ok {env : Env} {cfg : MCPConfig} {st : MState} {w : World}
    {pid : Nat} (hs : env.spawn cfg.name = Except.ok pid) :
    start_one_spawn env cfg st w =
      (Except.ok (),
       { st with
          procs := insertA st.procs cfg.name pid
          log_files := insertA st.log_files cfg.name (env.handleFor cfg.name) },
       { alive := fun x => if x == pid then true else w.alive x
         openH := fun x => if x == env.handleFor cfg.name then true else w.openH x }) := by
  unfold start_one_spawn
  rw [hs]

theorem spawnPhase_nil (env : Env) (st : MState) (w : World) :
    spawnPhase env [] st w = ([], st, w) := rfl

theorem spawnPhase_cons_ok {env : Env} {cfg : MCPConfig} {rest : List MCPConfig}
    {st : MState} {w : World} {u : Unit} {st1 : MState} {w1 : World}
    (hE : start_one env cfg st w = (Except.ok u, st1, w1)) :
    spawnPhase env (cfg :: rest) st w = spawnPhase env rest st1 w1 := by
  conv_lhs => unfold spawnPhase
  rw [hE]

theorem spawnPhase_cons_err {env : Env} {cfg : MCPConfig} {rest : List MCPConfig}
    {st : MState} {w : World} {e : String} {st1 : MState} {w1 : World}
    (hE : start_one env cfg st w = (Except.error e, st1, w1)) :
    spawnPhase env (cfg :: rest) st w =
      ((cfg.name ++ " failed to start: " ++ e) :: (spawnPhase env rest st1 w1).1,
       (spawnPhase env rest st1 w1).2.1, (spawnPhase env rest st1 w1).2.2) := by
  conv_lhs => unfold spawnPhase
  rw [hE]

/-! ## Key-set lemmas for the two maps -/

theorem keyMem_eq_false {ks : List String} {k : String} (h : ¬ k ∈ ks) :
    keyMem ks k = false := by
  cases hb : keyMem ks k
  · rfl
  · exact absurd ((keyMem_iff ks k).1 hb) h

theorem alookup_eq_none {l : List (String × Nat)} {k : String} (h : ¬ k ∈ keysOf l) :
    alookup l k = none := by
  induction l with
  | nil => rfl
  | cons kv rest ih =>
    simp only [keysOf, List.map_cons, List.mem_cons] at h
    push_neg at h
    simp only [alookup]
    have hne : ¬ (kv.1 == k) = true := by
      simp only [beq_iff_eq]
      intro he
      exact h.1 he.symm
    rw [if_neg hne]
    exact ih h.2

theorem mem_keysOf_insertA_self (l : List (String × Nat)) (k : String) (v : Nat) :
    k ∈ keysOf (insertA l k v) := by
  rw [keysOf_insertA]
  by_cases h : keyMem (keysOf l) k = true
  · rw [if_pos h]
    exact (keyMem_iff _ _).1 h
  · rw [if_neg h]
    simp

theorem mem_keysOf_insertA_mono {l : List (String × Nat)} {k2 : String}
    (h : k2 ∈ keysOf l) (k : String) (v : Nat) : k2 ∈ keysOf (insertA l k v) := by
  rw [keysOf_insertA]
  by_cases hb : keyMem (keysOf l) k = true
  · rw [if_pos hb]
    exact h
  · rw [if_neg hb]
    simp [h]

theorem keysOf_insertA_fresh {l : List (String × Nat)} {k : String} (h : ¬ k ∈ keysOf l)
    (v : Nat) : keysOf (insertA l k v) = keysOf l ++ [k] := by
  rw [keysOf_insertA]
  rw [if_neg (by rw [keyMem_eq_false h]; simp)]

/-! ## Field preservation through `_start_one` and the spawn loop -/

theorem start_one_spawn_configs (env : Env) (cfg : MCPConfig) (st : MState) (w : World) :
    (start_one_spawn env cfg st w).2.1.configs = st.configs := by
  cases hs : env.spawn cfg.name with
  | error e => rw [start_one_spawn_err hs]
  | ok pid => rw [start_one_spawn_ok hs]

theorem start_one_spawn_started (env : Env) (cfg : MCPConfig) (st : MState) (w : World) :
    (start_one_spawn env cfg st w).2.1.started = st.started := by
  cases hs : env.spawn cfg.name with
  | error e => rw [start_one_spawn_err hs]
  | ok pid => rw [start_one_spawn_ok hs]

theorem start_one_spawn_keys {env : Env} {cfg : MCPConfig} {st : MState} {w : World}
    (hk : keysOf st.procs = keysOf st.log_files) :
    keysOf (start_one_spawn env cfg st w).2.1.procs =
      keysOf (start_one_spawn env cfg st w).2.1.log_files := by
  cases hs : env.spawn cfg.name with
  | error e =>
    rw [start_one_spawn_err hs]
    exact hk
  | ok pid =>
    rw [start_one_spawn_ok hs]
    show keysOf (insertA st.procs cfg.name pid) =
      keysOf (insertA st.log_files cfg.name (env.handleFor cfg.name))
    rw [keysOf_insertA, keysOf_insertA, hk]

theorem start_one_configs (env : Env) (cfg : MCPConfig) (st : MState) (w : World) :
    (start_one env cfg st w).2.1.configs = st.configs := by
  cases hl : alookup st.procs cfg.name with
  | none =>
    rw [start_one_eq_spawn_of_none hl]
    exact start_one_spawn_configs env cfg st w
  | some pid =>
    cases hw : w.alive pid with
    | true => rw [start_one_eq_of_alive hl hw]
    | false =>
      rw [start_one_eq_spawn_of_dead hl hw]
      exact start_one_spawn_configs env cfg st w

theorem start_one_started (env : Env) (cfg : MCPConfig) (st : MState) (w : World) :
    (start_one env cfg st w).2.1.started = st.started := by
  cases hl : alookup st.procs cfg.name with
  | none =>
    rw [start_one_eq_spawn_of_none hl]
    exact start_one_spawn_started env cfg st w
  | some pid =>
    cases hw : w.alive pid with
    | true => rw [start_one_eq_of_alive hl hw]
    | false =>
      rw [start_one_eq_spawn_of_dead hl hw]
      exact start_one_spawn_started env cfg st w

theorem start_one_keys {env : Env} {cfg : MCPConfig} {st : MState} {w : World}
    (hk : keysOf st.procs = keysOf st.log_files) :
    keysOf (start_one env cfg st w).2.1.procs =
      keysOf (start_one env cfg st w).2.1.log_files := by
  cases hl : alookup st.procs cfg.name with
  | none =>
    rw [start_one_eq_spawn_of_none hl]
    exact start_one_spawn_keys hk
  | some pid =>
    cases hw : w.alive pid with
    | true =>
      rw [start_one_eq_of_alive hl hw]
      exact hk
    | false =>
      rw [start_one_eq_spawn_of_dead hl hw]
      exact start_one_spawn_keys hk

theorem start_one_keys_mono {env : Env} {cfg : MCPConfig} {st : MState} {w : World}
    {k : String} (h : k ∈ keysOf st.procs) :
    k ∈ keysOf (start_one env cfg st w).2.1.procs := by
  cases hl : alookup st.procs cfg.name with
  | none =>
    rw [start_one_eq_spawn_of_none hl]
    cases hs : env.spawn cfg.name with
    | error e =>
      rw [start_one_spawn_err hs]
      exact h
    | ok pid =>
      rw [start_one_spawn_ok hs]
      exact mem_keysOf_insertA_mono h cfg.name pid
  | some pid =>
    cases hw : w.alive pid with
    | true =>
      rw [start_one_eq_of_alive hl hw]
      exact h
    | false =>
      rw [start_one_eq_spawn_of_dead hl hw]
      cases hs : env.spawn cfg.name with
      | error e =>
        rw [start_one_spawn_err hs]
        exact h
      | ok pid2 =>
        rw [start_one_spawn_ok hs]
        exact mem_keysOf_insertA_mono h cfg.name pid2

theorem start_one_ne_mono {env : Env} {cfg : MCPConfig} {st : MState} {w : World}
    (h : st.procs ≠ []) : (start_one env cfg st w).2.1.procs ≠ [] := by
  cases hl : alookup st.procs cfg.name with
  | none =>
    rw [start_one_eq_spawn_of_none hl]
    cases hs : env.spawn cfg.name with
    | error e =>
      rw [start_one_spawn_err hs]
      exact h
    | ok pid =>
      rw [start_one_spawn_ok hs]
      exact insertA_ne_nil st.procs cfg.name pid
  | some pid =>
    cases hw : w.alive pid with
    | true =>
      rw [start_one_eq_of_alive hl hw]
      exact h
    | false =>
      rw [start_one_eq_spawn_of_dead hl hw]
      cases hs : env.spawn cfg.name with
      | error e =>
        rw [start_one_spawn_err hs]
        exact h
      | ok pid2 =>
        rw [start_one_spawn_ok hs]
        exact insertA_ne_nil st.procs cfg.name pid2

theorem start_one_ok_procs_ne {env : Env} {cfg : MCPConfig} {st : MState} {w : World}
    {u : Unit} (h : (start_one env cfg st w).1 = Except.ok u) :
    (start_one env cfg st w).2.1.procs ≠ [] := by
  cases hl : alookup st.procs cfg.name with
  | none =>
    rw [start_one_eq_spawn_of_none hl] at h ⊢
    cases hs : env.spawn cfg.name with
    | error e =>
      rw [start_one_spawn_err hs] at h
      simp at h
    | ok pid =>
      rw [start_one_spawn_ok hs]
      exact insertA_ne_nil st.procs cfg.name pid
  | some pid =>
    cases hw : w.alive pid with
    | true =>
      rw [start_one_eq_of_alive hl hw]
      exact alookup_ne_nil hl
    | false =>
      rw [start_one_eq_spawn_of_dead hl hw] at h ⊢
      cases hs : env.spawn cfg.name with
      | error e =>
        rw [start_one_spawn_err hs] at h
        simp at h
      | ok pid2 =>
        rw [start_one_spawn_ok hs]
        exact insertA_ne_nil st.procs cfg.name pid2

theorem spawnPhase_configs (env : Env) :
    ∀ (cfgs : List MCPConfig) (st : MState) (w : World),
      (spawnPhase env cfgs st w).2.1.configs = st.configs := by
  intro cfgs
  induction cfgs with
  | nil => intro st w; rfl
  | cons cfg rest ih =>
    intro st w
    rcases hE : start_one env cfg st w with ⟨r1, st1, w1⟩
    have h1 := start_one_configs env cfg st w
    rw [hE] at h1
    cases r1 with
    | ok u =>
      rw [spawnPhase_cons_ok hE, ih st1 w1]
      exact h1
    | error e =>
      rw [spawnPhase_cons_err hE]
      show (spawnPhase env rest st1 w1).2.1.configs = st.configs
      rw [ih st1 w1]
      exact h1

theorem spawnPhase_started (env : Env) :
    ∀ (cfgs : List MCPConfig) (st : MState) (w : World),
      (spawnPhase env cfgs st w).2.1.started = st.started := by
  intro cfgs
  induction cfgs with
  | nil => intro st w; rfl
  | cons cfg rest ih =>
    intro st w
    rcases hE : start_one env cfg st w with ⟨r1, st1, w1⟩
    have h1 := start_one_started env cfg st w
    rw [hE] at h1
    cases r1 with
    | ok u =>
      rw [spawnPhase_cons_ok hE, ih st1 w1]
      exact h1
    | error e =>
      rw [spawnPhase_cons_err hE]
      show (spawnPhase env rest st1 w1).2.1.started = st.started
      rw [ih st1 w1]
      exact h1

theorem spawnPhase_keys (env : Env) :
    ∀ (cfgs : List MCPConfig) (st : MState) (w : World),
      keysOf st.procs = keysOf st.log_files →
      keysOf (spawnPhase env cfgs st w).2.1.procs =
        keysOf (spawnPhase env cfgs st w).2.1.log_files := by
  intro cfgs
  induction cfgs with
  | nil => intro st w hk; exact hk
  | cons cfg rest ih =>
    intro st w hk
    rcases hE : start_one env cfg st w with ⟨r1, st1, w1⟩
    have h1 := @start_one_keys env cfg st w hk
    rw [hE] at h1
    cases r1 with
    | ok u =>
      rw [spawnPhase_cons_ok hE]
      exact ih st1 w1 h1
    | error e =>
      rw [spawnPhase_cons_err hE]
      show keysOf (spawnPhase env rest st1 w1).2.1.procs =
        keysOf (spawnPhase env rest st1 w1).2.1.log_files
      exact ih st1 w1 h1

theorem spawnPhase_keys_mono (env : Env) :
    ∀ (cfgs : List MCPConfig) (st : MState) (w : World) (k : String),
      k ∈ keysOf st.procs → k ∈ keysOf (spawnPhase env cfgs st w).2.1.procs := by
  intro cfgs
  induction cfgs with
  | nil => intro st w k h; exact h
  | cons cfg rest ih =>
    intro st w k h
    rcases hE : start_one env cfg st w with ⟨r1, st1, w1⟩
    have h1 := @start_one_keys_mono env cfg st w _ h
    rw [hE] at h1
    cases r1 with
    | ok u =>
      rw [spawnPhase_cons_ok hE]
      exact ih st1 w1 k h1
    | error e =>
      rw [spawnPhase_cons_err hE]
      show k ∈ keysOf (spawnPhase env rest st1 w1).2.1.procs
      exact ih st1 w1 k h1

theorem spawnPhase_ne_mono (env : Env) :
    ∀ (cfgs : List MCPConfig) (st : MState) (w : World),
      st.procs ≠ [] → (spawnPhase env cfgs st w).2.1.procs ≠ [] := by
  intro cfgs
  induction cfgs with
  | nil => intro st w h; exact h
  | cons cfg rest ih =>
    intro st w h
    rcases hE : start_one env cfg st w with ⟨r1, st1, w1⟩
    have h1 := @start_one_ne_mono env cfg st w h
    rw [hE] at h1
    cases r1 with
    | ok u =>
      rw [spawnPhase_cons_ok hE]
      exact ih st1 w1 h1
    | error e =>
      rw [spawnPhase_cons_err hE]
      show (spawnPhase env rest st1 w1).2.1.procs ≠ []
      exact ih st1 w1 h1

theorem spawnPhase_procs_ne (env : Env) :
    ∀ (cfgs : List MCPConfig) (st : MState) (w : World), cfgs ≠ [] →
      (spawnPhase env cfgs st w).1 = [] → (spawnPhase env cfgs st w).2.1.procs ≠ [] := by
  intro cfgs
  induction cfgs with
  | nil => intro st w h; exact absurd rfl h
  | cons cfg rest ih =>
    intro st w _ herr
    rcases hE : start_one env cfg st w with ⟨r1, st1, w1⟩
    cases r1 with
    | ok u =>
      rw [spawnPhase_cons_ok hE] at herr ⊢
      have h1 : (start_one env cfg st w).1 = Except.ok u := by rw [hE]
      have h2 := start_one_ok_procs_ne h1
      rw [hE] at h2
      exact spawnPhase_ne_mono env rest st1 w1 h2
    | error e =>
      rw [spawnPhase_cons_err hE] at herr
      simp at herr

/-! ## `stop_all` state equations and the reachable-state invariant -/

theorem stop_all_nil {env : Env} {st : MState} {w : World} (h : st.procs = []) :
    stop_all env st w = (st, w) := by
  unfold stop_all
  rw [if_pos ((listIsEmpty_iff _).2 h)]

theorem stop_all_ne {env : Env} {st : MState} {w : World} (h : st.procs ≠ []) :
    (stop_all env st w).1 = { st with procs := [], log_files := [], started := false } := by
  unfold stop_all
  rw [if_neg (fun hc => h ((listIsEmpty_iff _).1 hc))]

/-- The internal well-formedness of a supervisor state: the two maps track
the same service names, the configuration list is the constructor's, and a
`started` supervisor tracks at least one process. -/
def Inv (st : MState) : Prop :=
  keysOf st.procs = keysOf st.log_files ∧ st.configs = defaultConfigs ∧
    (st.started = true → st.procs ≠ [])

theorem stop_all_inv (env : Env) (st : MState) (w : World) (h : Inv st) :
    Inv (stop_all env st w).1 := by
  by_cases hp : st.procs = []
  · rw [stop_all_nil hp]
    exact h
  · rw [stop_all_ne hp]
    refine ⟨rfl, h.2.1, ?_⟩
    intro hc
    simp at hc

theorem start_all_inv (env : Env) (st : MState) (w : World) (h : Inv st) :
    Inv (start_all env st w).2.1 := by
  simp only [start_all]
  by_cases hs : st.started = true
  · rw [if_pos hs]
    exact h
  · rw [if_neg hs]
    have hinvsp : Inv (spawnPhase env st.configs st w).2.1 := by
      refine ⟨spawnPhase_keys env st.configs st w h.1, ?_, ?_⟩
      · rw [spawnPhase_configs env st.configs st w]
        exact h.2.1
      · intro hc
        rw [spawnPhase_started env st.configs st w] at hc
        exact absurd hc hs
    by_cases he : (spawnPhase env st.configs st w).1.isEmpty = true
    · rw [if_pos he]
      by_cases hh : (healthPhase env st.configs).isEmpty = true
      · rw [if_pos hh]
        refine ⟨hinvsp.1, hinvsp.2.1, ?_⟩
        intro _
        show (spawnPhase env st.configs st w).2.1.procs ≠ []
        apply spawnPhase_procs_ne env st.configs st w
        · rw [h.2.1]
          simp [defaultConfigs]
        · exact (listIsEmpty_iff _).1 he
      · rw [if_neg hh]
        exact stop_all_inv env _ _ hinvsp
    · rw [if_neg he]
      exact stop_all_inv env _ _ hinvsp

theorem reachable_inv {st : MState} {w : World} (h : Reachable st w) : Inv st := by
  induction h with
  | init =>
    refine ⟨rfl, rfl, ?_⟩
    intro hc
    simp [initialManager] at hc
  | step_start env _ ih => exact start_all_inv env _ _ ih
  | step_stop env _ ih => exact stop_all_inv env _ _ ih

/-! ## Full characterisation of the spawn loop (lines 76-80) -/

/-- The structured error the spawn loop records for one descriptor: `some`
exactly when `Popen` raises, carrying the source's
`f"{cfg.name} failed to start: {e}"` line 80 format. -/
def spawnErrOf (env : Env) (cfg : MCPConfig) : Option String :=
  match env.spawn cfg.name with
  | Except.error e => some (cfg.name ++ " failed to start: " ++ e)
  | Except.ok _ => none

theorem spawnErrOf_err {env : Env} {cfg : MCPConfig} {e : String}
    (hs : env.spawn cfg.name = Except.error e) :
    spawnErrOf env cfg = some (cfg.name ++ " failed to start: " ++ e) := by
  unfold spawnErrOf
  rw [hs]

theorem spawnErrOf_ok {env : Env} {cfg : MCPConfig} {pid : Nat}
    (hs : env.spawn cfg.name = Except.ok pid) : spawnErrOf env cfg = none := by
  unfold spawnErrOf
  rw [hs]

theorem spawnPhase_char (env : Env) :
    ∀ (cfgs : List MCPConfig) (st : MState) (w : World),
      (cfgs.map MCPConfig.name).Nodup →
      (∀ cfg ∈ cfgs, ¬ cfg.name ∈ keysOf st.procs) →
      (spawnPhase env cfgs st w).1 = cfgs.filterMap (spawnErrOf env) ∧
      (∀ cfg ∈ cfgs, ∀ pid, env.spawn cfg.name = Except.ok pid →
        cfg.name ∈ keysOf (spawnPhase env cfgs st w).2.1.procs) := by
  intro cfgs
  induction cfgs with
  | nil =>
    intro st w _ _
    exact ⟨rfl, by simp⟩
  | cons cfg rest ih =>
    intro st w hnodup hfresh
    have hl : alookup st.procs cfg.name = none :=
      alookup_eq_none (hfresh cfg (List.mem_cons_self cfg rest))
    have hnodup1 : (rest.map MCPConfig.name).Nodup := by
      simpa using hnodup.of_cons
    have hheadfresh : ¬ cfg.name ∈ rest.map MCPConfig.name := by
      have := hnodup
      rw [List.map_cons, List.nodup_cons] at this
      exact this.1
    cases hsp : env.spawn cfg.name with
    | error e =>
      have hEq := @start_one_eq_spawn_of_none env cfg st w hl
      rw [start_one_spawn_err hsp] at hEq
      rw [spawnPhase_cons_err hEq]
      constructor
      · show (cfg.name ++ " failed to start: " ++ e) ::
          (spawnPhase env rest st _).1 = List.filterMap (spawnErrOf env) (cfg :: rest)
        rw [List.filterMap_cons_some (spawnErrOf_err hsp)]
        rw [(ih st _ hnodup1 (fun c hc => hfresh c (List.mem_cons_of_mem cfg hc))).1]
      · intro c hc pid hok
        cases hc with
        | head =>
          rw [hsp] at hok
          simp at hok
        | tail _ hc2 =>
          show c.name ∈ keysOf (spawnPhase env rest st _).2.1.procs
          exact (ih st _ hnodup1 (fun c2 hc2b => hfresh c2 (List.mem_cons_of_mem cfg hc2b))).2
            c hc2 pid hok
    | ok pid =>
      have hEq := @start_one_eq_spawn_of_none env cfg st w hl
      rw [start_one_spawn_ok hsp] at hEq
      rw [spawnPhase_cons_ok hEq]
      have hkeys2 : keysOf (insertA st.procs cfg.name pid) = keysOf st.procs ++ [cfg.name] :=
        keysOf_insertA_fresh (hfresh cfg (List.mem_cons_self cfg rest)) pid
      have hfresh2 : ∀ c ∈ rest, ¬ c.name ∈ keysOf
          ({ st with
              procs := insertA st.procs cfg.name pid
              log_files := insertA st.log_files cfg.name (env.handleFor cfg.name) } :
            MState).procs := by
        intro c hc hmem
        rw [show keysOf ({ st with
              procs := insertA st.procs cfg.name pid
              log_files := insertA st.log_files cfg.name (env.handleFor cfg.name) } :
            MState).procs = keysOf (insertA st.procs cfg.name pid) from rfl] at hmem
        rw [hkeys2] at hmem
        rcases List.mem_append.1 hmem with hmem1 | hmem2
        · exact hfresh c (List.mem_cons_of_mem cfg hc) hmem1
        · have hcname : c.name = cfg.name := by simpa using hmem2
          exact hheadfresh (by rw [← hcname]; exact List.mem_map_of_mem MCPConfig.name hc)
      have iha := ih
        { st with
            procs := insertA st.procs cfg.name pid
            log_files := insertA st.log_files cfg.name (env.handleFor cfg.name) }
        ⟨fun x => if x == pid then true else w.alive x,
         fun x => if x == env.handleFor cfg.name then true else w.openH x⟩
        hnodup1 hfresh2
      constructor
      · rw [iha.1]
        rw [List.filterMap_cons_none (spawnErrOf_ok hsp)]
      · intro c hc pid2 hok
        cases hc with
        | head =>
          apply spawnPhase_keys_mono
          rw [hkeys2]
          simp
        | tail _ hc2 =>
          exact iha.2 c hc2 pid2 hok

/-! ## Helpers tying health-check failures to the aggregate error text -/

def isError : Except String Unit → Bool
  | Except.error _ => true
  | Except.ok _ => false

def errMsgOf : Except String Unit → String
  | Except.error e => e
  | Except.ok _ => ""

theorem wait_healthy_iters_le (cfg : MCPConfig) (env : HealthEnv) (lr : LogRead)
    {fuel j : Nat} (hj : j < fuel) (hdead : env.alive j = false) :
    (wait_healthy cfg env lr fuel).iters ≤ j + 1 :=
  waitHealthyGo_iters_le cfg env lr hdead fuel 0 false 0 (Nat.zero_le j) (by omega)

theorem wait_healthy_fail_msg (cfg : MCPConfig) (env : HealthEnv) (lr : LogRead)
    (fuel : Nat) (h : (wait_healthy cfg env lr fuel).ok = false) :
    ∃ s, (wait_healthy cfg env lr fuel).msg = s ++ read_log_tail lr :=
  waitHealthyGo_fail_msg cfg env lr fuel 0 false 0 h

/-- Every member of an error list occurs contiguously inside the
`"; "`-joined aggregate message (lines 85 and 95). -/
theorem joinSemi_parts : ∀ (l : List String) (e : String), e ∈ l →
    ∃ a b, (joinSemi l).data = a ++ (e.data ++ b) := by
  intro l
  induction l with
  | nil => intro e he; simp at he
  | cons x rest ih =>
    intro e he
    cases rest with
    | nil =>
      have hex : e = x := by simpa using he
      subst hex
      refine ⟨[], [], ?_⟩
      simp [joinSemi]
    | cons y ys =>
      rcases List.mem_cons.1 he with hex | hmem
      · subst hex
        refine ⟨[], ("; ".data) ++ (joinSemi (y :: ys)).data, ?_⟩
        show (joinSemi (e :: y :: ys)).data =
          [] ++ (e.data ++ (("; ".data) ++ (joinSemi (y :: ys)).data))
        simp [joinSemi, data_append, List.append_assoc]
      · obtain ⟨a, b, hab⟩ := ih e hmem
        refine ⟨x.data ++ ("; ".data) ++ a, b, ?_⟩
        show (joinSemi (x :: y :: ys)).data = (x.data ++ ("; ".data) ++ a) ++ (e.data ++ b)
        simp [joinSemi, data_append, hab, List.append_assoc]

/-- A failing service's `f"{name} unhealthy: {msg}"` line is collected by
the health loop of `start_all` (lines 88-91). -/
theorem healthPhase_mem (env : Env) :
    ∀ (cfgs : List MCPConfig) (cfg : MCPConfig), cfg ∈ cfgs →
      (wait_healthy cfg (env.health cfg.name) (env.logRead cfg.name)
        (env.healthFuel cfg.name)).ok = false →
      unhealthyLine cfg (wait_healthy cfg (env.health cfg.name) (env.logRead cfg.name)
        (env.healthFuel cfg.name)).msg ∈ healthPhase env cfgs := by
  intro cfgs
  induction cfgs with
  | nil => intro cfg h; simp at h
  | cons c rest ih =>
    intro cfg hmem hfail
    simp only [healthPhase]
    rcases List.mem_cons.1 hmem with hec | hmem2
    · subst hec
      rw [if_neg (by simp [hfail])]
      exact List.mem_cons_self _ _
    · by_cases hc : (wait_healthy c (env.health c.name) (env.logRead c.name)
          (env.healthFuel c.name)).ok = true
      · rw [if_pos hc]
        exact ih cfg hmem2 hfail
      · rw [if_neg hc]
        exact List.mem_cons_of_mem _ (ih cfg hmem2 hfail)

/-! ## Concrete environments and states used by counterexamples and
witnesses -/

/-- A benign environment: every spawn succeeds, nothing interesting
happens. -/
def env0 : Env :=
  { spawn := fun _ => Except.ok 0
    handleFor := fun _ => 0
    health := fun _ => ⟨fun _ => true, fun _ => none, none⟩
    healthFuel := fun _ => 1
    logRead := fun _ => LogRead.missing
    termRaises := fun _ => false
    exitsAt := fun _ => some 0 }

def lr0 : LogRead := LogRead.lines ["boot line one", "boot line two"]

/-- Health observations: the service always answers 404 on `/health` and
403 (a client error) on its root path. -/
def envRoot403 : HealthEnv := ⟨fun _ => true, fun _ => some 404, some 403⟩

/-- Health observations: 404 on `/health`, 404 on the root path. -/
def envRoot404 : HealthEnv := ⟨fun _ => true, fun _ => some 404, some 404⟩

/-- The claim scenario of C1/C2: `file-manager-mcp`'s executable is missing
so its spawn raises; `markdownify-mcp` spawns (process id 7, log handle 2)
but would never answer its health check within its budget.  The
`file-manager-mcp` log handle allocated before the failed spawn is
handle 1. -/
def envFail : Env :=
  { spawn := fun n =>
      if n = "file-manager-mcp" then Except.error "No such file or directory"
      else Except.ok 7
    handleFor := fun n => if n = "file-manager-mcp" then 1 else 2
    health := fun _ => ⟨fun _ => true, fun _ => none, none⟩
    healthFuel := fun _ => 2
    logRead := fun _ => LogRead.missing
    termRaises := fun _ => false
    exitsAt := fun _ => some 0 }

/-- Both services fail to spawn, with distinct exception messages. -/
def envFail2 : Env :=
  { spawn := fun n =>
      if n = "file-manager-mcp" then Except.error "exec format error"
      else Except.error "permission denied"
    handleFor := fun n => if n = "file-manager-mcp" then 1 else 2
    health := fun _ => ⟨fun _ => true, fun _ => none, none⟩
    healthFuel := fun _ => 2
    logRead := fun _ => LogRead.missing
    termRaises := fun _ => false
    exitsAt := fun _ => some 0 }

/-- Every spawned process is observed already exited at the first health
poll, with a one-line log. -/
def env4 : Env :=
  { spawn := fun _ => Except.ok 3
    handleFor := fun _ => 1
    health := fun _ => ⟨fun _ => false, fun _ => none, none⟩
    healthFuel := fun _ => 5
    logRead := fun _ => LogRead.lines ["crash: missing module"]
    termRaises := fun _ => false
    exitsAt := fun _ => some 0 }

/-- A state tracking one running `file-manager-mcp` process (pid 3, log
handle 7). -/
def st5 : MState :=
  { configs := defaultConfigs
    procs := [("file-manager-mcp", 3)]
    log_files := [("file-manager-mcp", 7)]
    started := true }

def w5 : World := ⟨fun _ => true, fun _ => true⟩

/-- A state tracking one running `markdownify-mcp` process (pid 9, log
handle 4). -/
def st7m : MState :=
  { configs := defaultConfigs
    procs := [("markdownify-mcp", 9)]
    log_files := [("markdownify-mcp", 4)]
    started := true }

/-- The pid-9 process honours SIGTERM after 3 poll iterations. -/
def env7 : Env :=
  { spawn := fun _ => Except.ok 0
    handleFor := fun _ => 0
    health := fun _ => ⟨fun _ => true, fun _ => none, none⟩
    healthFuel := fun _ => 1
    logRead := fun _ => LogRead.missing
    termRaises := fun _ => false
    exitsAt := fun _ => some 3 }

def stStarted : MState :=
  { configs := defaultConfigs
    procs := [("file-manager-mcp", 5)]
    log_files := [("file-manager-mcp", 6)]
    started := true }

/-! ## The claims -/

/-- C1: the claim asserts all-or-nothing startup: whenever `start_all`
raises, zero child processes remain running and zero log file handles
remain open.  The code violates the handle half: `_start_one` opens the
per-service log file (line 106) before calling `Popen` (line 111); when the
spawn raises, the handle was never stored in `_log_files`, so the
`stop_all` rollback (line 84) cannot close it.  Concretely, with
`file-manager-mcp`'s spawn raising and `markdownify-mcp` spawning fine,
`start_all` raises, the spawned process (pid 7) is killed and its tracked
handle 2 is closed — but handle 1, opened for the failed spawn, remains
open. -/
theorem c1_spawn_failure_leaks_log_handle :
    isError (start_all envFail initialManager World.init).1 = true ∧
    (start_all envFail initialManager World.init).2.2.alive 7 = false ∧
    (start_all envFail initialManager World.init).2.2.openH 2 = false ∧
    (start_all envFail initialManager World.init).2.2.openH 1 = true := by
  decide

/-- C2 (counterexample): the claim asserts that with one bad-executable
service and one health-timeout service, the single raised error names both
services.  In the code, spawn errors abort `start_all` before any health
check runs (lines 82-85), so the raised message names only
`file-manager-mcp` and never mentions `markdownify-mcp`. -/
theorem c2_spawn_failure_preempts_health_error :
    isError (start_all envFail initialManager World.init).1 = true ∧
    containsStr (errMsgOf (start_all envFail initialManager World.init).1)
      "file-manager-mcp" = true ∧
    containsStr (errMsgOf (start_all envFail initialManager World.init).1)
      "markdownify-mcp" = false := by
  decide

/-- C2 (amended): `start_all` aggregates every failure of the phase in
which it raises.  In the claim's mixed scenario (`envFail`: one spawn
failure, one would-be health timeout) the error carries the spawn-failing
service's name and description only; when both services fail in the same
phase (`envFail2`: two spawn failures) the single message carries both
names and both distinct descriptions. -/
theorem c2_phase_scoped_aggregation :
    (containsStr (errMsgOf (start_all envFail initialManager World.init).1)
        "file-manager-mcp" = true ∧
      containsStr (errMsgOf (start_all envFail initialManager World.init).1)
        "No such file or directory" = true ∧
      containsStr (errMsgOf (start_all envFail initialManager World.init).1)
        "markdownify-mcp" = false) ∧
    (containsStr (errMsgOf (start_all envFail2 initialManager World.init).1)
        "file-manager-mcp" = true ∧
      containsStr (errMsgOf (start_all envFail2 initialManager World.init).1)
        "exec format error" = true ∧
      containsStr (errMsgOf (start_all envFail2 initialManager World.init).1)
        "markdownify-mcp" = true ∧
      containsStr (errMsgOf (start_all envFail2 initialManager World.init).1)
        "permission denied" = true) := by
  decide

/-- C3 (counterexample): the claim asserts that after a first 404 from the
health path, any HTTP response from the root — including a client error —
marks the service healthy.  With the root answering 403, the loop does not
report the service healthy (line 148 accepts only 200 and 404): it runs to
its timeout and fails, despite having made the single root request. -/
theorem c3_root_client_error_not_healthy :
    (wait_healthy fileManagerCfg envRoot403 lr0 3).ok = false ∧
    (wait_healthy fileManagerCfg envRoot403 lr0 3).rootQueries = 1 := by
  decide

/-- C3 (amended): during a health check the bare-root fallback is issued at
most once; after a first 404 from the health path, a root response with
status 200 or 404 marks the service healthy on that iteration, while a
root response with any other status (here: every status outside
`{200, 404}`) does not — the loop keeps polling and ends unhealthy. -/
theorem c3_root_fallback_200_404 (cfg : MCPConfig) (lr : LogRead) :
    (∀ (env : HealthEnv) (fuel : Nat), (wait_healthy cfg env lr fuel).rootQueries ≤ 1) ∧
    (∀ (env : HealthEnv) (f s : Nat), env.alive 0 = true → env.health 0 = some 404 →
      env.root = some s → (s = 200 ∨ s = 404) →
      (wait_healthy cfg env lr (f + 1)).ok = true ∧
      (wait_healthy cfg env lr (f + 1)).rootQueries = 1) ∧
    (∀ (env : HealthEnv) (fuel s : Nat), (∀ i, env.alive i = true) →
      (∀ i, env.health i = some 404) → env.root = some s → ¬(s = 200 ∨ s = 404) →
      (wait_healthy cfg env lr fuel).ok = false) := by
  refine ⟨fun env fuel => wait_healthy_root_once cfg env lr fuel, ?_, ?_⟩
  · intro env f s hal hh hr hs
    rw [wait_healthy_404_good_root cfg env lr f s hal hh hr hs]
    exact ⟨rfl, rfl⟩
  · intro env fuel s hal hh hr hs
    exact wait_healthy_404_bad_root cfg env lr fuel s hal hh hr hs

theorem c3_root_fallback_witness :
    (envRoot404.alive 0 = true ∧ envRoot404.health 0 = some 404 ∧
      envRoot404.root = some 404) ∧
    (wait_healthy fileManagerCfg envRoot404 lr0 3).ok = true ∧
    (wait_healthy fileManagerCfg envRoot404 lr0 3).rootQueries = 1 := by
  have h := (c3_root_fallback_200_404 fileManagerCfg lr0).2.1 envRoot404 2 404
    rfl rfl rfl (Or.inr rfl)
  exact ⟨⟨rfl, rfl, rfl⟩, h.1, h.2⟩

/-- C4: when a service's process is observed exited at poll iteration `j`
(before it ever became healthy), the health check returns within `j + 1`
iterations — it never waits out the remaining start-timeout budget, and at
`j = 0` it fails on the very first poll; every failure message carries
`_read_log_tail`'s last-ten-lines output, and the aggregate error that
`start_all` raises (the `"; "`-join of the `f"{name} unhealthy: {msg}"`
lines collected at line 91) contains that service's name and that log
tail. -/
theorem c4_early_exit_fast_fail (env : Env) (cfgs : List MCPConfig) (cfg : MCPConfig)
    (j : Nat) (hmem : cfg ∈ cfgs) (hj : j < env.healthFuel cfg.name)
    (hdead : (env.health cfg.name).alive j = false) :
    (wait_healthy cfg (env.health cfg.name) (env.logRead cfg.name)
        (env.healthFuel cfg.name)).iters ≤ j + 1 ∧
    ((wait_healthy cfg (env.health cfg.name) (env.logRead cfg.name)
        (env.healthFuel cfg.name)).ok = false →
      containsStr (wait_healthy cfg (env.health cfg.name) (env.logRead cfg.name)
        (env.healthFuel cfg.name)).msg (read_log_tail (env.logRead cfg.name)) = true ∧
      containsStr (joinSemi (healthPhase env cfgs)) cfg.name = true ∧
      containsStr (joinSemi (healthPhase env cfgs))
        (read_log_tail (env.logRead cfg.name)) = true) ∧
    (j = 0 → (wait_healthy cfg (env.health cfg.name) (env.logRead cfg.name)
        (env.healthFuel cfg.name)).ok = false ∧
      (wait_healthy cfg (env.health cfg.name) (env.logRead cfg.name)
        (env.healthFuel cfg.name)).iters = 1) := by
  refine ⟨wait_healthy_iters_le cfg (env.health cfg.name) (env.logRead cfg.name) hj hdead,
    ?_, ?_⟩
  · intro hfail
    obtain ⟨s, hmsg⟩ := wait_healthy_fail_msg cfg (env.health cfg.name)
      (env.logRead cfg.name) (env.healthFuel cfg.name) hfail
    have hline := healthPhase_mem env cfgs cfg hmem hfail
    obtain ⟨a, b, hjoin⟩ := joinSemi_parts _ _ hline
    refine ⟨?_, ?_, ?_⟩
    · exact contains_of_parts _ _ s.data []
        (by rw [hmsg, data_append, List.append_nil])
    · apply contains_of_parts _ _ a
        ((" unhealthy: ").data ++ ((wait_healthy cfg (env.health cfg.name)
          (env.logRead cfg.name) (env.healthFuel cfg.name)).msg.data ++ b))
      rw [hjoin]
      simp [unhealthyLine, data_append, List.append_assoc]
    · apply contains_of_parts _ _
        (a ++ (cfg.name.data ++ ((" unhealthy: ").data ++ s.data))) b
      rw [hjoin]
      simp [unhealthyLine, data_append, hmsg, List.append_assoc]
  · intro hj0
    subst hj0
    cases hfe : env.healthFuel cfg.name with
    | zero =>
      rw [hfe] at hj
      exact absurd hj (by omega)
    | succ f =>
      rw [wait_healthy_first_dead cfg (env.health cfg.name) (env.logRead cfg.name)
        f hdead]
      exact ⟨rfl, rfl⟩

theorem c4_early_exit_witness :
    ((0 : Nat) < env4.healthFuel fileManagerCfg.name ∧
      (env4.health fileManagerCfg.name).alive 0 = false) ∧
    (wait_healthy fileManagerCfg (env4.health fileManagerCfg.name)
      (env4.logRead fileManagerCfg.name) (env4.healthFuel fileManagerCfg.name)).ok = false ∧
    (wait_healthy fileManagerCfg (env4.health fileManagerCfg.name)
      (env4.logRead fileManagerCfg.name) (env4.healthFuel fileManagerCfg.name)).iters = 1 ∧
    containsStr (joinSemi (healthPhase env4 defaultConfigs)) fileManagerCfg.name = true ∧
    containsStr (joinSemi (healthPhase env4 defaultConfigs))
      (read_log_tail (env4.logRead fileManagerCfg.name)) = true := by
  have h := c4_early_exit_fast_fail env4 defaultConfigs fileManagerCfg 0
    (by decide) (by decide) rfl
  have hfail := (h.2.2 rfl).1
  have hiters := (h.2.2 rfl).2
  have hagg := h.2.1 hfail
  exact ⟨⟨by decide, rfl⟩, hfail, hiters, hagg.2.1, hagg.2.2⟩

/-- C5 (counterexample): the claim asserts that after `stop_all` returns,
in every starting state, no log file handle remains open.  This fails at a
state the supervisor itself reaches: after the failed-spawn `start_all` of
`envFail` (the C1 scenario), log handle 1 was opened at line 106 for the
service whose spawn then raised, so it is in neither map; the subsequent
`stop_all` returns — via the `if not self.procs` early return at
lines 182-183, both maps being empty — with that supervisor-opened handle
still open, and its phase 4 could not have closed an untracked handle in
any case. -/
theorem c5_leaked_handle_survives_stop_all :
    (stop_all env0 (start_all envFail initialManager World.init).2.1
        (start_all envFail initialManager World.init).2.2).2.openH 1 = true ∧
    Reachable (start_all envFail initialManager World.init).2.1
      (start_all envFail initialManager World.init).2.2 :=
  ⟨by decide, Reachable.step_start envFail Reachable.init⟩

/-- C5 (amended): after `stop_all` returns, in every starting state whose
two maps track the same names (every state the supervisor itself reaches),
no tracked child process remains running and no *tracked* log handle
remains open, under every environment — including those where
`terminate()` raises or the process ignores SIGTERM.  Phase 3's SIGKILL
(line 208) and phase 4's `close()` (line 216) are modelled as effective,
which is what the OS guarantees for a delivered SIGKILL and what CPython
guarantees for `close`.  The guarantee cannot extend to untracked handles:
a handle leaked by a raising spawn (C1's bug) stays open. -/
theorem c5_teardown_guarantee (env : Env) (st : MState) (w : World)
    (hkeys : keysOf st.procs = keysOf st.log_files) :
    (∀ p ∈ trackedPids st, (stop_all env st w).2.alive p = false) ∧
    (∀ x ∈ st.log_files.map Prod.snd, (stop_all env st w).2.openH x = false) :=
  ⟨fun p hp => stop_all_alive env st w p hp,
   fun x hx => stop_all_openH env st w hkeys x hx⟩

theorem c5_teardown_witness :
    (keysOf st5.procs = keysOf st5.log_files) ∧
    (stop_all env0 st5 w5).2.alive 3 = false ∧
    (stop_all env0 st5 w5).2.openH 7 = false := by
  have h := c5_teardown_guarantee env0 st5 w5 rfl
  exact ⟨rfl, h.1 3 (by decide), h.2 7 (by decide)⟩

/-- C6: from every reachable supervisor state, `stop_all` (a total
function: the source swallows every per-process exception and never raises)
leaves both maps cleared and the `started` flag false, and any further
`stop_all` call is an exact no-op, so arbitrarily many repetitions are
safe and a following `start_all` starts from a clean slate. -/
theorem c6_idempotent_teardown (env : Env) (st : MState) (w : World)
    (h : Reachable st w) :
    (stop_all env st w).1.procs = [] ∧ (stop_all env st w).1.log_files = [] ∧
    (stop_all env st w).1.started = false ∧
    (∀ env2, stop_all env2 (stop_all env st w).1 (stop_all env st w).2 =
      stop_all env st w) := by
  have hinv := reachable_inv h
  by_cases hp : st.procs = []
  · have hlogs : st.log_files = [] := by
      have hk := hinv.1
      rw [hp] at hk
      exact listMap_eq_nil hk.symm
    have hstart : st.started = false := by
      cases hb : st.started
      · rfl
      · exact absurd hp (hinv.2.2 hb)
    rw [stop_all_nil hp]
    exact ⟨hp, hlogs, hstart, fun env2 => stop_all_nil hp⟩
  · have h1 := @stop_all_ne env st w hp
    refine ⟨by rw [h1], by rw [h1], by rw [h1], ?_⟩
    intro env2
    have hr : (stop_all env st w).1.procs = [] := by rw [h1]
    exact stop_all_nil hr

theorem c6_idempotent_witness :
    (stop_all env0 initialManager World.init).1.procs = [] ∧
    (stop_all env0 initialManager World.init).1.log_files = [] ∧
    (stop_all env0 initialManager World.init).1.started = false := by
  have h := c6_idempotent_teardown env0 initialManager World.init Reachable.init
  exact ⟨h.1, h.2.1, h.2.2.1⟩

/-- C7: `stop_all` is a total function (it always terminates); its phase-2
graceful wait runs at most `20 * len(procs)` poll iterations — the
embedding of the `2 * len(procs)`-second deadline at 0.1-second sleeps —
and exits at the first iteration at which every tracked process has been
observed exited; every straggler still running after the wait is killed in
phase 3, so every tracked process is dead when `stop_all` returns, even
when it ignored the graceful terminate. -/
theorem c7_bounded_teardown (env : Env) (st : MState) (w : World) :
    stopWaitTime env st w ≤ 20 * st.procs.length ∧
    (∀ t0, allStopped env w (termSentList env w st.procs) st.procs t0 = true →
      stopWaitTime env st w ≤ t0) ∧
    (∀ p ∈ stragglers env st w, (stop_all env st w).2.alive p = false) ∧
    (∀ p ∈ trackedPids st, (stop_all env st w).2.alive p = false) := by
  refine ⟨?_, ?_, ?_, ?_⟩
  · unfold stopWaitTime
    have hle := waitLoop_le (allStopped env w (termSentList env w st.procs) st.procs)
      (20 * st.procs.length) 0
    omega
  · intro t0 h0
    unfold stopWaitTime
    exact waitLoop_le_of_check h0 (20 * st.procs.length) 0 (Nat.zero_le t0)
  · intro p hp
    exact stop_all_alive env st w p (List.mem_of_mem_filter hp)
  · intro p hp
    exact stop_all_alive env st w p hp

theorem c7_bounded_witness :
    allStopped env7 w5 (termSentList env7 w5 st7m.procs) st7m.procs 3 = true ∧
    stopWaitTime env7 st7m w5 ≤ 3 ∧
    (stop_all env7 st7m w5).2.alive 9 = false := by
  have h := c7_bounded_teardown env7 st7m w5
  exact ⟨by decide, h.2.1 3 (by decide), h.2.2.2 9 (by decide)⟩

/-- C8: the spawn loop of `start_all` (lines 76-80) attempts every
descriptor: its collected error list is exactly one
`f"{name} failed to start: {e}"` entry per descriptor whose spawn raised —
independent of the position of the failures, so an early failure aborts
nothing — and every descriptor whose spawn succeeded is tracked in the
process map afterwards; no error is raised before the loop ends (the loop
only collects, `start_all` raises afterwards, line 83-85). -/
theorem c8_spawn_loop_no_early_abort (env : Env) (cfgs : List MCPConfig) (st : MState)
    (w : World) (hnodup : (cfgs.map MCPConfig.name).Nodup)
    (hfresh : ∀ cfg ∈ cfgs, ¬ cfg.name ∈ keysOf st.procs) :
    (spawnPhase env cfgs st w).1 = cfgs.filterMap (spawnErrOf env) ∧
    (∀ cfg ∈ cfgs, ∀ pid, env.spawn cfg.name = Except.ok pid →
      cfg.name ∈ keysOf (spawnPhase env cfgs st w).2.1.procs) :=
  spawnPhase_char env cfgs st w hnodup hfresh

theorem c8_spawn_loop_witness :
    ((defaultConfigs.map MCPConfig.name).Nodup ∧
      (∀ cfg ∈ defaultConfigs, ¬ cfg.name ∈ keysOf initialManager.procs)) ∧
    (spawnPhase envFail defaultConfigs initialManager World.init).1 =
      defaultConfigs.filterMap (spawnErrOf envFail) ∧
    "markdownify-mcp" ∈
      keysOf (spawnPhase envFail defaultConfigs initialManager World.init).2.1.procs := by
  have h := c8_spawn_loop_no_early_abort envFail defaultConfigs initialManager World.init
    (by decide) (by decide)
  exact ⟨⟨by decide, by decide⟩, h.1,
    h.2 markdownifyCfg (by decide) 7 rfl⟩

/-- C9: whenever the `started` flag is true, `start_all` returns
immediately (lines 71-72): the result is `None` (no error), the supervisor
state is unchanged in every field, and the world is untouched — no process
is spawned and no health request is made. -/
theorem c9_repeated_start_noop (env : Env) (st : MState) (w : World)
    (h : st.started = true) : start_all env st w = (Except.ok (), st, w) := by
  simp only [start_all]
  rw [if_pos h]

theorem c9_repeated_start_witness :
    stStarted.started = true ∧
    start_all env0 stStarted World.init = (Except.ok (), stStarted, World.init) :=
  ⟨rfl, c9_repeated_start_noop env0 stStarted World.init rfl⟩

/-- C10: in every state reachable from a freshly constructed manager by any
sequence of `start_all`/`stop_all` calls under arbitrary OS behaviour, the
key list of the process map equals the key list of the log-file map: a
process handle is tracked exactly when its log sink is tracked. -/
theorem c10_keyset_invariant {st : MState} {w : World} (h : Reachable st w) :
    keysOf st.procs = keysOf st.log_files :=
  (reachable_inv h).1

theorem c10_keyset_witness :
    keysOf (start_all envFail initialManager World.init).2.1.procs =
      keysOf (start_all envFail initialManager World.init).2.1.log_files :=
  c10_keyset_invariant (Reachable.step_start envFail Reachable.init)

end MVPAgent
